import Mathlib

/-!
# Verification of the granite-db IDE adapter layer

Shallow embedding of the CLI-adapter core in `src/ide/src-tauri/src/main.rs`.
Rust strings are modelled as `List Char`; Rust `u64` values as `Nat` with an
explicit bound `u64Max` where overflow matters (`str::parse::<u64>` fails above
it). Process spawning, timeouts and JSON (de)serialisation are external to the
repository's algorithmic core, so the negotiation functions take the outcome of
each invocation (and the external JSON decoder) as parameters, exactly as the
Rust functions consume `run_granitectl`'s and `serde_json`'s results.
-/

/-- Whitespace recognised by the embedding of Rust's trimming functions
(`char::is_whitespace`, restricted to the ASCII range). -/
def isWS (c : Char) : Bool :=
  c = ' ' || c = '\t' || c = '\n' || c = '\r' || c = '\x0b' || c = '\x0c'

/-- Model of Rust `str::trim_start`. -/
def trimStartL (l : List Char) : List Char := l.dropWhile isWS

/-- Model of Rust `str::trim_end`. -/
def trimEndL (l : List Char) : List Char := (l.reverse.dropWhile isWS).reverse

/-- Model of Rust `str::trim`. -/
def trimL (l : List Char) : List Char := trimStartL (trimEndL l)

/-- Split at every occurrence of a character, like Rust `str::split(c)`
(always returns at least one piece). -/
def splitChar (sep : Char) : List Char → List (List Char)
  | [] => [[]]
  | c :: rest =>
    match splitChar sep rest with
    | [] => if c = sep then [[], []] else [[c]]
    | h :: t => if c = sep then [] :: h :: t else (c :: h) :: t

/-- Does `pat` occur at the start of the second list, like Rust
`str::starts_with`. -/
def startsWithL : List Char → List Char → Bool
  | [], _ => true
  | _ :: _, [] => false
  | p :: ps, c :: cs => p = c && startsWithL ps cs

/-- Model of Rust `str::strip_prefix`. -/
def dropPre : List Char → List Char → Option (List Char)
  | [], l => some l
  | _ :: _, [] => none
  | p :: ps, c :: cs => if p = c then dropPre ps cs else none

/-- Model of Rust `str::strip_suffix`. -/
def dropSuf (pat l : List Char) : Option (List Char) :=
  (dropPre pat.reverse l.reverse).map List.reverse

/-- Model of Rust `str::split_once(c)`: split at the first occurrence of a
character. -/
def splitOnceChar (sep : Char) : List Char → Option (List Char × List Char)
  | [] => none
  | c :: rest =>
    if c = sep then some ([], rest)
    else (splitOnceChar sep rest).map (fun p => (c :: p.1, p.2))

/-- Model of Rust `str::split_once(pat)`: split at the first occurrence of a
substring. `str::find(pat)`-based truncation `&s[..idx]` is the first
component of this result. -/
def splitOnceSub (pat : List Char) : List Char → Option (List Char × List Char)
  | [] => if startsWithL pat [] then some ([], []) else none
  | c :: rest =>
    if startsWithL pat (c :: rest) then some ([], (c :: rest).drop pat.length)
    else (splitOnceSub pat rest).map (fun p => (c :: p.1, p.2))

/-- Model of Rust `str::contains(pat)`. -/
def hasSub (pat l : List Char) : Bool := (splitOnceSub pat l).isSome

/-- Model of Rust `str::trim_end_matches(c)`. -/
def dropEndWhileChar (ch : Char) (l : List Char) : List Char :=
  (l.reverse.dropWhile (fun c => c = ch)).reverse

/-- Model of Rust `char::to_ascii_lowercase`. -/
def toLowerAscii (c : Char) : Char :=
  if 'A' ≤ c && c ≤ 'Z' then Char.ofNat (c.toNat + 32) else c

/-- Largest value representable in a Rust `u64`. -/
def u64Max : Nat := 18446744073709551615

/-- Numeric value of an ASCII digit. -/
def digitVal (c : Char) : Nat := c.toNat - 48

/-- The optional leading `+` accepted by Rust `str::parse::<u64>()`. -/
def stripPlus (s : List Char) : List Char :=
  match s with
  | c :: rest => if c = '+' then rest else c :: rest
  | [] => []

/-- Model of Rust `str::parse::<u64>()`: an optional leading `+`, then one or
more ASCII digits, rejecting values above `u64Max` (positive overflow is a
parse error in Rust). -/
def parseU64 (s : List Char) : Option Nat :=
  let ds := stripPlus s
  if ds = [] then none
  else if ds.all Char.isDigit then
    let v := ds.foldl (fun acc c => acc * 10 + digitVal c) 0
    if v ≤ u64Max then some v else none
  else none

/-- Canonical decimal representation, as produced by Rust's `{}` formatting of
an unsigned integer. -/
def natRepr (n : Nat) : List Char := Nat.toDigits 10 n

/-- Model of the `QueryResultPayload` struct (main.rs lines 14-24). -/
structure QueryResultPayload where
  columns : List (List Char)
  rows : List (List (List Char))
  durationMs : Nat
  rowsAffected : Option Nat
  message : Option (List Char)
  deriving DecidableEq

/-- Model of the `ExecResponse` struct (main.rs lines 26-34). -/
structure ExecResponse where
  format : List Char
  output : Option (List Char)
  result : Option QueryResultPayload
  deriving DecidableEq

/-- Model of `split_table_row` (main.rs lines 470-474). -/
def split_table_row (line : List Char) : List (List Char) :=
  (splitChar '|' line).map trimL

/-- Model of `parse_row_count_line` (main.rs lines 476-485): recognise a
trailer of the form `(<count> row(s))`. -/
def parse_row_count_line (line : List Char) : Option Nat :=
  let t := trimL line
  match dropPre ("(".toList) t with
  | none => none
  | some wp =>
    match dropSuf (")".toList) wp with
    | none => none
    | some ws =>
      match splitOnceChar ' ' ws with
      | none => none
      | some (numberPart, rest) =>
        if rest = ("row(s)".toList) then parseU64 numberPart else none

/-- First maximal run of ASCII digits in a list. -/
def firstDigitRun (s : List Char) : List Char :=
  (s.dropWhile (fun c => !c.isDigit)).takeWhile (fun c => c.isDigit)

/-- Numeric value of the first maximal digit run. -/
def digitRunValue (s : List Char) : Nat :=
  (firstDigitRun s).foldl (fun acc c => acc * 10 + digitVal c) 0

/-- Model of `extract_rows_affected` (main.rs lines 487-502): collect the
first run of decimal digits, parse it as `u64`, keep it only when positive. -/
def extract_rows_affected (message : List Char) : Option Nat :=
  let digits := firstDigitRun message
  if digits = [] then none
  else
    match parseU64 digits with
    | some v => if 0 < v then some v else none
    | none => none

/-- Rows-collection loop of `parse_legacy_exec_output` (main.rs lines
442-449): every line after header and separator must split into exactly
`ncols` cells. -/
def collectDataRows (ncols : Nat) : List (List Char) → Except (List Char) (List (List (List Char)))
  | [] => .ok []
  | line :: rest =>
    let values := split_table_row line
    if values.length = ncols then
      match collectDataRows ncols rest with
      | .ok rs => .ok (values :: rs)
      | .error e => .error e
    else .error ("row column count mismatch".toList)

/-- Header/separator/data phase of `parse_legacy_exec_output` (main.rs lines
433-467), after the trailer has been handled: `ra`/`msg` are the
`rows_affected`/`message` accumulated from the trailer. -/
def execTablePhase (lines : List (List Char)) (d : Nat) (ra : Option Nat)
    (msg : Option (List Char)) : Except (List Char) QueryResultPayload :=
  match lines with
  | l0 :: _ :: rest =>
    let columns := split_table_row l0
    if columns = [] then .error ("missing column definitions".toList)
    else
      match collectDataRows columns.length rest with
      | .error e => .error e
      | .ok dataRows =>
        match ra with
        | some _ => .ok ⟨columns, dataRows, d, ra, msg⟩
        | none =>
          .ok ⟨columns, dataRows, d,
            (if 0 < dataRows.length then some dataRows.length else none),
            (match msg with
             | some m => some m
             | none => some (natRepr dataRows.length ++ (" row(s)".toList)))⟩
  | _ => .error ("unexpected table output".toList)

/-- Trailer phase of `parse_legacy_exec_output` (main.rs lines 421-431): if
the last remaining line is a `(<count> row(s))` trailer, remove it, record the
count as rows-affected only when positive, and set the status message. -/
def execTrailerPhase (lines : List (List Char)) (d : Nat) :
    Except (List Char) QueryResultPayload :=
  match lines.getLast? with
  | none => execTablePhase lines d none none
  | some last =>
    match parse_row_count_line last with
    | none => execTablePhase lines d none none
    | some count =>
      execTablePhase lines.dropLast d
        (if 0 < count then some count else none)
        (some (natRepr count ++ (" row(s)".toList)))

/-- Model of `parse_legacy_exec_output` (main.rs lines 395-468) on the list of
non-empty trimmed lines. A single remaining line not starting with `(` is a
bare status message. -/
def parseExecLines : List (List Char) → Nat → Except (List Char) QueryResultPayload
  | [], _ => .error ("granitectl returned no output".toList)
  | [l], d =>
    if startsWithL ("(".toList) l then execTrailerPhase [l] d
    else .ok ⟨[], [], d, extract_rows_affected (trimL l), some (trimL l)⟩
  | l0 :: l1 :: rest, d => execTrailerPhase (l0 :: l1 :: rest) d

/-- The line preprocessing of `parse_legacy_exec_output` (main.rs lines
399-403): split into lines, trim each line's end, drop empty lines. -/
def linesOf (output : List Char) : List (List Char) :=
  ((splitChar '\n' output).map trimEndL).filter (fun l => !l.isEmpty)

/-- Model of `parse_legacy_exec_output` (main.rs lines 395-468) on the raw
tool output. -/
def parse_legacy_exec_output (output : List Char) (d : Nat) :
    Except (List Char) QueryResultPayload :=
  parseExecLines (linesOf output) d

/-- Model of `is_unknown_format_error` (main.rs lines 384-387). -/
def is_unknown_format_error (message : List Char) : Bool :=
  let lower := message.map toLowerAscii
  hasSub ("unknown format".toList) lower ||
    hasSub ("json format is only supported".toList) lower

/-- Model of `looks_like_json` (main.rs lines 314-317). -/
def looks_like_json (output : List Char) : Bool :=
  match trimStartL output with
  | [] => false
  | c :: _ => c = '{' || c = '['

/-- Model of the `"jsonRows"` branch of `exec_sql` (main.rs lines 167-189).
`jsonRun` is the outcome of the JSON-mode invocation of granitectl,
`parseJson` models the external `serde_json::from_str`, and `legacy` is the
outcome of `legacy_exec_result` (the legacy re-invocation plus legacy
parsing). -/
def execSqlJsonRows (fmt : List Char)
    (jsonRun : Except (List Char) (List Char))
    (parseJson : List Char → Except (List Char) QueryResultPayload)
    (legacy : Except (List Char) QueryResultPayload) :
    Except (List Char) ExecResponse :=
  match jsonRun with
  | .ok out =>
    match parseJson out with
    | .ok payload => .ok ⟨fmt, none, some payload⟩
    | .error e => .error (("Failed to parse JSON output: ".toList) ++ e)
  | .error err =>
    if is_unknown_format_error err then
      match legacy with
      | .ok payload => .ok ⟨fmt, none, some payload⟩
      | .error e => .error e
    else .error err

/-- Model of the negotiation in the `metadata` command (main.rs lines
227-252). `metaRun` is the outcome of the `meta --json` invocation and
`legacy` the outcome of `legacy_metadata` (dump invocation plus legacy
metadata parsing). -/
def metadataNegotiation (metaRun : Except (List Char) (List Char))
    (legacy : Except (List Char) (List Char)) : Except (List Char) (List Char) :=
  match metaRun with
  | .ok out =>
    if looks_like_json out then .ok out
    else
      let preview := trimL out
      if hasSub ("unknown command".toList) preview then legacy
      else if preview = [] then .error ("granitectl returned no metadata".toList)
      else .error (("granitectl metadata output was not JSON: ".toList) ++ preview)
  | .error err =>
    if hasSub ("unknown command".toList) err then legacy
    else .error err

/-- Model of the exit-status handling of `run_granitectl` (main.rs lines
297-311), given the decoded output streams: a failure status maps to an error
carrying the trimmed standard-error text, or a generic message when that text
trims to nothing. -/
def granitectl_exit_result (success : Bool) (stdout stderr : List Char) :
    Except (List Char) (List Char × List Char) :=
  if success then .ok (stdout, stderr)
  else if (trimL stderr).isEmpty then .error ("granitectl returned an error".toList)
  else .error (trimL stderr)

/-- Model of the `LegacyColumn` struct (main.rs lines 729-738). -/
structure LegacyColumn where
  name : List Char
  columnType : List Char
  notNull : Bool
  primary : Bool
  deriving DecidableEq

/-- Model of the `LegacyIndex` struct (main.rs lines 740-745). -/
structure LegacyIndex where
  name : List Char
  columns : List (List Char)
  unique : Bool
  deriving DecidableEq

/-- Model of the `LegacyForeignKey` struct (main.rs lines 747-755). -/
structure LegacyForeignKey where
  name : List Char
  columns : List (List Char)
  refTable : List Char
  refColumns : List (List Char)
  deriving DecidableEq

/-- Model of the `LegacyTable` struct (main.rs lines 717-727): the optional
sections are `none` when omitted from the serialised output. -/
structure LegacyTable where
  name : List Char
  rowCount : Nat
  columns : List LegacyColumn
  indexes : Option (List LegacyIndex)
  fks : Option (List LegacyForeignKey)
  deriving DecidableEq

/-- Model of the `LegacyMetadata` struct (main.rs lines 712-715). -/
structure LegacyMetadata where
  tables : List LegacyTable
  deriving DecidableEq

/-- Model of the `LegacySection` enum (main.rs lines 593-598). -/
inductive LegacySection where
  | columns
  | indexes
  | foreignKeys
  deriving DecidableEq

/-- Model of the `LegacyTableBuilder` struct (main.rs lines 600-606). -/
structure LegacyTableBuilder where
  name : List Char
  rowCount : Nat
  columns : List LegacyColumn
  indexes : List LegacyIndex
  fks : List LegacyForeignKey
  deriving DecidableEq

/-- Model of `From<LegacyTableBuilder> for LegacyTable` (main.rs lines
608-626): an optional section collected empty is omitted (`none`), never kept
as an empty sequence. -/
def builderToTable (b : LegacyTableBuilder) : LegacyTable :=
  { name := b.name
    rowCount := b.rowCount
    columns := b.columns
    indexes := if b.indexes = [] then none else some b.indexes
    fks := if b.fks = [] then none else some b.fks }

/-- Model of `parse_legacy_column` (main.rs lines 628-650): flags are detected
by substring containment anywhere in the trimmed line, then the line is
truncated at the first occurrence of each marker before splitting into name
and declared type at the first space. -/
def parse_legacy_column (line : List Char) : Except (List Char) LegacyColumn :=
  let rest0 := trimL line
  let notNull := hasSub (" NOT NULL".toList) rest0
  let primary := hasSub (" PRIMARY KEY".toList) rest0
  let rest1 := match splitOnceSub (" NOT NULL".toList) rest0 with
    | some p => p.1
    | none => rest0
  let rest2 := match splitOnceSub (" PRIMARY KEY".toList) rest1 with
    | some p => p.1
    | none => rest1
  match splitOnceChar ' ' rest2 with
  | none => .error (("unexpected column line: ".toList) ++ line)
  | some (name, columnType) => .ok ⟨name, trimL columnType, notNull, primary⟩

/-- Model of `parse_legacy_index` (main.rs lines 652-681). -/
def parse_legacy_index (line : List Char) : Except (List Char) LegacyIndex :=
  let trimmed := trimL line
  let bu := match dropSuf (" UNIQUE".toList) trimmed with
    | some b => (trimEndL b, true)
    | none => (trimmed, false)
  match splitOnceSub (" (".toList) bu.1 with
  | none => .error (("unexpected index line: ".toList) ++ line)
  | some (name, colsPart) =>
    let columns := (splitChar ',' (dropEndWhileChar ')' colsPart)).filterMap
      (fun col => let t := trimL col; if t = [] then none else some t)
    .ok ⟨trimL name, columns, bu.2⟩

/-- Model of `parse_legacy_fk` (main.rs lines 683-710). -/
def parse_legacy_fk (line : List Char) : Except (List Char) LegacyForeignKey :=
  match splitOnceSub (" (".toList) line with
  | none => .error (("unexpected foreign key line: ".toList) ++ line)
  | some (name, rest) =>
    match splitOnceSub (") REFERENCES ".toList) rest with
    | none => .error (("unexpected foreign key line: ".toList) ++ line)
    | some (childCols, remainder) =>
      match splitOnceChar '(' remainder with
      | none => .error (("unexpected foreign key line: ".toList) ++ line)
      | some (refTable, refCols) =>
        let refColumns := ((splitChar ',' (dropEndWhileChar ')' refCols)).map trimL).filter
          (fun c => !c.isEmpty)
        let columns := ((splitChar ',' childCols).map trimL).filter (fun c => !c.isEmpty)
        .ok ⟨trimL name, columns, trimL refTable, refColumns⟩

/-- Table-header parsing inside `parse_legacy_metadata` (main.rs lines
531-541): `rest` is the line after the `Table ` marker, `line` the full line
used in error messages. -/
def parse_table_header (line rest : List Char) : Except (List Char) (List Char × Nat) :=
  match splitOnceSub (" (".toList) rest with
  | none => .error (("unexpected table header: ".toList) ++ line)
  | some (namePart, rowsPart) =>
    match dropSuf (")".toList) rowsPart with
    | none => .error (("unexpected row count: ".toList) ++ line)
    | some r1 =>
      match dropSuf (" row(s)".toList) r1 with
      | none => .error (("unexpected row count: ".toList) ++ line)
      | some r2 =>
        match parseU64 r2 with
        | none => .error (("invalid row count in line: ".toList) ++ line)
        | some n => .ok (namePart, n)

/-- State of the `parse_legacy_metadata` loop (main.rs lines 509-512). -/
structure MetaState where
  tables : List LegacyTable
  current : Option LegacyTableBuilder
  sec : LegacySection
  deriving DecidableEq

/-- Finalise the in-progress table, as the loop does on a new header and at
end of input (main.rs lines 528-530 and 585-587). -/
def pushCurrent (tables : List LegacyTable) (current : Option LegacyTableBuilder) :
    List LegacyTable :=
  match current with
  | none => tables
  | some b => tables ++ [builderToTable b]

/-- Result of processing one line of the metadata dump: either a next state,
or the `No tables defined` short-circuit. -/
inductive MetaStepResult where
  | next (s : MetaState)
  | shortCircuit
  deriving DecidableEq

/-- One iteration of the `parse_legacy_metadata` loop (main.rs lines
514-583). -/
def metaStep (s : MetaState) (rawLine : List Char) : Except (List Char) MetaStepResult :=
  let line := trimEndL rawLine
  if line = [] then .ok (.next s)
  else if line = ("No tables defined".toList) then .ok .shortCircuit
  else
    match dropPre ("Table ".toList) line with
    | some rest =>
      match parse_table_header line rest with
      | .error e => .error e
      | .ok nc =>
        .ok (.next ⟨pushCurrent s.tables s.current,
          some ⟨nc.1, nc.2, [], [], []⟩, .columns⟩)
    | none =>
      match s.current with
      | none => .ok (.next s)
      | some tb =>
        if line = ("  Indexes:".toList) then
          .ok (.next ⟨s.tables, some tb, .indexes⟩)
        else if line = ("  Foreign Keys:".toList) then
          .ok (.next ⟨s.tables, some tb, .foreignKeys⟩)
        else
          match s.sec with
          | .columns =>
            match dropPre ("  - ".toList) line with
            | some r =>
              match parse_legacy_column r with
              | .error e => .error e
              | .ok c =>
                .ok (.next ⟨s.tables, some { tb with columns := tb.columns ++ [c] }, s.sec⟩)
            | none => .ok (.next s)
          | .indexes =>
            match dropPre ("    - ".toList) line with
            | some r =>
              match parse_legacy_index r with
              | .error e => .error e
              | .ok ix =>
                .ok (.next ⟨s.tables, some { tb with indexes := tb.indexes ++ [ix] }, s.sec⟩)
            | none => .ok (.next s)
          | .foreignKeys =>
            match dropPre ("    - ".toList) line with
            | some r =>
              match parse_legacy_fk r with
              | .error e => .error e
              | .ok fk =>
                .ok (.next ⟨s.tables, some { tb with fks := tb.fks ++ [fk] }, s.sec⟩)
            | none => .ok (.next s)

/-- The full `parse_legacy_metadata` loop over the dump's lines (main.rs
lines 514-587). -/
def metaLoop (s : MetaState) : List (List Char) → Except (List Char) (List LegacyTable)
  | [] => .ok (pushCurrent s.tables s.current)
  | l :: ls =>
    match metaStep s l with
    | .error e => .error e
    | .ok .shortCircuit => .ok []
    | .ok (.next s') => metaLoop s' ls

/-- Run the loop over a line-list returning the reached state (`some`) or
`none` when the sentinel short-circuited within those lines. -/
def metaRunPre (s : MetaState) : List (List Char) → Except (List Char) (Option MetaState)
  | [] => .ok (some s)
  | l :: ls =>
    match metaStep s l with
    | .error e => .error e
    | .ok .shortCircuit => .ok none
    | .ok (.next s') => metaRunPre s' ls

/-- Is an `Except` value a success. -/
def isOkE {ε α : Type} : Except ε α → Bool
  | .ok _ => true
  | .error _ => false

/-- Model of `parse_legacy_metadata` (main.rs lines 509-591), producing the
`LegacyMetadata` value that the Rust code serialises to JSON (the
serialisation itself is external `serde_json`). -/
def parse_legacy_metadata (output : List Char) : Except (List Char) LegacyMetadata :=
  match metaLoop ⟨[], none, .columns⟩ (splitChar '\n' output) with
  | .error e => .error e
  | .ok ts => .ok ⟨ts⟩

/-- Absent-or-non-empty invariant for a table's optional sections. -/
def tableOptInvariant (t : LegacyTable) : Prop :=
  (t.indexes = none ∨ ∃ l, l ≠ [] ∧ t.indexes = some l) ∧
    (t.fks = none ∨ ∃ l, l ≠ [] ∧ t.fks = some l)

/-- A sample payload used by negotiation witnesses. -/
def samplePayload : QueryResultPayload :=
  ⟨[], [], 0, none, none⟩

instance {ε α : Type} [DecidableEq ε] [DecidableEq α] : DecidableEq (Except ε α)
  | .ok a, .ok b =>
    if h : a = b then .isTrue (by rw [h]) else .isFalse (by simp [h])
  | .ok _, .error _ => .isFalse (by simp)
  | .error _, .ok _ => .isFalse (by simp)
  | .error a, .error b =>
    if h : a = b then .isTrue (by rw [h]) else .isFalse (by simp [h])

theorem startsWithL_iff_take (pat l : List Char) :
    startsWithL pat l = true ↔ l.take pat.length = pat := by
  induction pat generalizing l with
  | nil => simp [startsWithL]
  | cons p ps ih =>
    cases l with
    | nil => simp [startsWithL]
    | cons c cs =>
      simp only [startsWithL, Bool.and_eq_true, decide_eq_true_eq, ih,
        List.length_cons, List.take_succ_cons, List.cons.injEq]
      exact ⟨fun ⟨h1, h2⟩ => ⟨h1.symm, h2⟩, fun ⟨h1, h2⟩ => ⟨h1.symm, h2⟩⟩

theorem startsWithL_append_self (pat ys : List Char) :
    startsWithL pat (pat ++ ys) = true := by
  rw [startsWithL_iff_take]
  exact List.take_left pat ys

theorem startsWithL_length_le (pat l : List Char) (h : startsWithL pat l = true) :
    pat.length ≤ l.length := by
  have := (startsWithL_iff_take pat l).mp h
  have hlen := congrArg List.length this
  simp [List.length_take] at hlen
  omega

theorem startsWithL_append_of (pat l ys : List Char) (h : startsWithL pat l = true) :
    startsWithL pat (l ++ ys) = true := by
  have hle := startsWithL_length_le pat l h
  rw [startsWithL_iff_take] at h ⊢
  rw [List.take_append_of_le_length hle, h]

theorem hasSub_of_startsWithL (pat l : List Char) (h : startsWithL pat l = true) :
    hasSub pat l = true := by
  cases l with
  | nil => simp [hasSub, splitOnceSub, h]
  | cons c cs => simp [hasSub, splitOnceSub, h]

theorem hasSub_cons_eq (pat : List Char) (c : Char) (t : List Char)
    (h : startsWithL pat (c :: t) = false) : hasSub pat (c :: t) = hasSub pat t := by
  simp [hasSub, splitOnceSub, h]

theorem hasSub_cons_of (pat : List Char) (c : Char) (t : List Char)
    (h : hasSub pat t = true) : hasSub pat (c :: t) = true := by
  cases hs : startsWithL pat (c :: t) with
  | true => exact hasSub_of_startsWithL _ _ hs
  | false => rw [hasSub_cons_eq pat c t hs]; exact h

theorem hasSub_cons_false (pat : List Char) (c : Char) (t : List Char)
    (h : hasSub pat (c :: t) = false) : hasSub pat t = false := by
  cases ht : hasSub pat t with
  | false => rfl
  | true => rw [hasSub_cons_of pat c t ht] at h; cases h

theorem hasSub_nil_iff (pat : List Char) : hasSub pat [] = true ↔ pat = [] := by
  cases pat with
  | nil => simp [hasSub, splitOnceSub, startsWithL]
  | cons p ps => simp [hasSub, splitOnceSub, startsWithL]

theorem hasSub_append_of (pat xs ys : List Char) (h : hasSub pat xs = true) :
    hasSub pat (xs ++ ys) = true := by
  induction xs with
  | nil =>
    have : pat = [] := (hasSub_nil_iff pat).mp h
    subst this
    simp only [List.nil_append]
    exact hasSub_of_startsWithL [] ys (by cases ys <;> simp [startsWithL])
  | cons c cs ih =>
    cases hs : startsWithL pat (c :: cs) with
    | true =>
      exact hasSub_of_startsWithL _ _ (by
        have := startsWithL_append_of pat (c :: cs) ys hs
        simpa using this)
    | false =>
      rw [hasSub_cons_eq pat c cs hs] at h
      simpa using hasSub_cons_of pat c (cs ++ ys) (ih h)

theorem hasSub_false_of_append (pat xs ys : List Char)
    (h : hasSub pat (xs ++ ys) = false) : hasSub pat xs = false := by
  cases hx : hasSub pat xs with
  | false => rfl
  | true => rw [hasSub_append_of pat xs ys hx] at h; cases h

theorem hasSub_middle (pat xs ys : List Char) : hasSub pat (xs ++ pat ++ ys) = true := by
  induction xs with
  | nil =>
    simpa using hasSub_of_startsWithL pat (pat ++ ys) (startsWithL_append_self pat ys)
  | cons c cs ih =>
    have : (c :: cs) ++ pat ++ ys = c :: (cs ++ pat ++ ys) := by simp
    rw [this]
    exact hasSub_cons_of pat c _ ih

theorem splitOnceSub_eq_none (pat l : List Char) (h : hasSub pat l = false) :
    splitOnceSub pat l = none := by
  cases hs : splitOnceSub pat l with
  | none => rfl
  | some p => rw [hasSub, hs] at h; cases h

theorem dropLast_append_ne (xs ys : List Char) (h : ys ≠ []) :
    (xs ++ ys).dropLast = xs ++ ys.dropLast := by
  induction xs with
  | nil => simp
  | cons c cs ih =>
    have hne : cs ++ ys ≠ [] := by
      intro he
      exact h (List.append_eq_nil.mp he).2
    cases hcs : cs ++ ys with
    | nil => exact absurd hcs hne
    | cons d ds =>
      rw [List.cons_append, hcs, List.dropLast_cons₂, ← hcs, ih, List.cons_append]

theorem splitOnceSub_middle (pat xs ys : List Char) (hpat : pat ≠ [])
    (h : hasSub pat ((xs ++ pat).dropLast) = false) :
    splitOnceSub pat (xs ++ pat ++ ys) = some (xs, ys) := by
  induction xs with
  | nil =>
    cases pat with
    | nil => exact absurd rfl hpat
    | cons p ps =>
      show splitOnceSub (p :: ps) (p :: (ps ++ ys)) = some ([], ys)
      rw [splitOnceSub]
      rw [if_pos (show startsWithL (p :: ps) (p :: (ps ++ ys)) = true from
        startsWithL_append_self (p :: ps) ys)]
      have hd : (p :: (ps ++ ys)).drop (p :: ps).length = ys := by
        simpa using List.drop_left (p :: ps) ys
      rw [hd]
  | cons c cs ih =>
    have hcp : cs ++ pat ≠ [] := fun he => hpat (List.append_eq_nil.mp he).2
    have hdl : ((c :: cs) ++ pat).dropLast = c :: (cs ++ pat).dropLast := by
      rw [List.cons_append]
      cases hcs : cs ++ pat with
      | nil => exact absurd hcs hcp
      | cons d ds => rw [List.dropLast_cons₂]
    rw [hdl] at h
    have h' : hasSub pat ((cs ++ pat).dropLast) = false := hasSub_cons_false _ _ _ h
    have hns : startsWithL pat (c :: (cs ++ pat ++ ys)) = false := by
      cases hs : startsWithL pat (c :: (cs ++ pat ++ ys)) with
      | false => rfl
      | true =>
        exfalso
        have htk := (startsWithL_iff_take pat _).mp hs
        have hlen1 : 1 ≤ pat.length := List.length_pos.mpr hpat
        obtain ⟨m, hm⟩ : ∃ m, pat.length = m + 1 := ⟨pat.length - 1, by omega⟩
        have hmlen : m ≤ (cs ++ pat).length - 1 := by
          simp only [List.length_append]
          omega
        have e2 : (cs ++ pat).take m = (cs ++ pat ++ ys).take m :=
          (List.take_append_of_le_length (by simp only [List.length_append]; omega)).symm
        have e1 : (c :: (cs ++ pat).dropLast).take pat.length = pat := by
          rw [hm, List.take_succ_cons, List.dropLast_eq_take, List.take_take,
            Nat.min_eq_left hmlen, e2, ← List.take_succ_cons, ← hm]
          exact htk
        have hsub : hasSub pat (c :: (cs ++ pat).dropLast) = true :=
          hasSub_of_startsWithL _ _ ((startsWithL_iff_take _ _).mpr e1)
        rw [hsub] at h
        cases h
    show splitOnceSub pat (c :: (cs ++ pat ++ ys)) = some (c :: cs, ys)
    rw [splitOnceSub, if_neg (by rw [hns]; simp), ih h']
    rfl

theorem splitOnceChar_middle (sep : Char) (name rest : List Char) (h : sep ∉ name) :
    splitOnceChar sep (name ++ sep :: rest) = some (name, rest) := by
  induction name with
  | nil => simp [splitOnceChar]
  | cons c cs ih =>
    have hc : ¬ c = sep := fun e => h (by simp [e])
    rw [List.cons_append, splitOnceChar, if_neg hc,
      ih (fun hm => h (List.mem_cons_of_mem _ hm))]
    rfl

theorem dropPre_append_self (pat rest : List Char) : dropPre pat (pat ++ rest) = some rest := by
  induction pat with
  | nil => simp [dropPre]
  | cons p ps ih => simp [dropPre, ih]

theorem dropSuf_append_self (pat xs : List Char) : dropSuf pat (xs ++ pat) = some xs := by
  simp [dropSuf, List.reverse_append, dropPre_append_self]

theorem trimStartL_cons_of (c : Char) (l : List Char) (h : isWS c = false) :
    trimStartL (c :: l) = c :: l := by
  simp [trimStartL, List.dropWhile_cons, h]

theorem trimEndL_snoc_of (l : List Char) (c : Char) (h : isWS c = false) :
    trimEndL (l ++ [c]) = l ++ [c] := by
  simp [trimEndL, List.reverse_append, List.dropWhile_cons, h]

theorem splitChar_ne_nil (sep : Char) (l : List Char) : splitChar sep l ≠ [] := by
  cases l with
  | nil => simp [splitChar]
  | cons c rest =>
    rw [splitChar]
    split <;> split <;> simp

theorem split_table_row_ne_nil (line : List Char) : split_table_row line ≠ [] := by
  rw [split_table_row]
  intro h
  exact splitChar_ne_nil '|' line (List.map_eq_nil.mp h)

theorem isDigit_ne_plus (c : Char) (h : c.isDigit = true) : c ≠ '+' := by
  intro he
  subst he
  exact absurd h (by decide)

theorem parseU64_eq_of_digits (ds : List Char) (h1 : ds ≠ [])
    (h2 : ds.all Char.isDigit = true) :
    parseU64 ds =
      if ds.foldl (fun acc c => acc * 10 + digitVal c) 0 ≤ u64Max
      then some (ds.foldl (fun acc c => acc * 10 + digitVal c) 0) else none := by
  have hsp : stripPlus ds = ds := by
    cases ds with
    | nil => rfl
    | cons c cs =>
      have hc : c ≠ '+' := isDigit_ne_plus c (by
        have := List.all_eq_true.mp h2 c (by simp)
        simpa using this)
      rw [stripPlus]
      rw [if_neg hc]
  simp only [parseU64, hsp, if_neg h1, h2, if_true]

theorem parseU64_of_digits (ds : List Char) (k : Nat) (h1 : ds ≠ [])
    (h2 : ds.all Char.isDigit = true)
    (h3 : ds.foldl (fun acc c => acc * 10 + digitVal c) 0 = k) (h4 : k ≤ u64Max) :
    parseU64 ds = some k := by
  rw [parseU64_eq_of_digits ds h1 h2, h3, if_pos h4]

theorem collectDataRows_ok (n : Nat) (rl : List (List Char))
    (h : ∀ l ∈ rl, (split_table_row l).length = n) :
    collectDataRows n rl = .ok (rl.map split_table_row) := by
  induction rl with
  | nil => simp [collectDataRows]
  | cons l ls ih =>
    simp only [collectDataRows]
    rw [if_pos (h l (by simp)), ih (fun x hx => h x (by simp [hx]))]
    rfl

theorem space_not_mem_digits (ds : List Char) (h : ds.all Char.isDigit = true) :
    ' ' ∉ ds := by
  intro hm
  have := List.all_eq_true.mp h ' ' hm
  exact absurd this (by decide)

theorem parse_row_count_trailer (ds : List Char) (k : Nat) (h1 : ds ≠ [])
    (h2 : ds.all Char.isDigit = true)
    (h3 : ds.foldl (fun acc c => acc * 10 + digitVal c) 0 = k) (h4 : k ≤ u64Max) :
    parse_row_count_line ('(' :: (ds ++ (" row(s))".toList))) = some k := by
  have hshape : '(' :: (ds ++ (" row(s))".toList)) =
      ('(' :: (ds ++ (" row(s)".toList))) ++ [')'] := by
    have : (" row(s))".toList : List Char) = (" row(s)".toList) ++ [')'] := by decide
    rw [this]
    simp
  have htrim : trimL ('(' :: (ds ++ (" row(s))".toList))) =
      '(' :: (ds ++ (" row(s))".toList)) := by
    rw [trimL, hshape, trimEndL_snoc_of _ _ (by decide), ← hshape,
      trimStartL_cons_of _ _ (by decide)]
  have hpre : dropPre ("(".toList) ('(' :: (ds ++ (" row(s))".toList))) =
      some (ds ++ (" row(s))".toList)) := by
    have : ("(".toList : List Char) = ['('] := by decide
    rw [this]
    simp [dropPre]
  have hsuf : dropSuf (")".toList) (ds ++ (" row(s))".toList)) =
      some (ds ++ (" row(s)".toList)) := by
    have h9 : (" row(s))".toList : List Char) = (" row(s)".toList) ++ [')'] := by decide
    have h10 : (")".toList : List Char) = [')'] := by decide
    rw [h9, h10, ← List.append_assoc]
    exact dropSuf_append_self [')'] (ds ++ (" row(s)".toList))
  have hsp : splitOnceChar ' ' (ds ++ (" row(s)".toList)) =
      some (ds, ("row(s)".toList)) := by
    have h11 : (" row(s)".toList : List Char) = ' ' :: ("row(s)".toList) := by decide
    rw [h11]
    exact splitOnceChar_middle ' ' ds _ (space_not_mem_digits ds h2)
  simp only [parse_row_count_line, htrim, hpre, hsuf, hsp, if_true]
  exact parseU64_of_digits ds k h1 h2 h3 h4

theorem extract_rows_affected_eq (m : List Char) :
    extract_rows_affected m =
      if firstDigitRun m = [] then none
      else if 0 < digitRunValue m ∧ digitRunValue m ≤ u64Max
      then some (digitRunValue m) else none := by
  by_cases h : firstDigitRun m = []
  · simp [extract_rows_affected, h]
  · have hall : (firstDigitRun m).all Char.isDigit = true := by
      apply List.all_eq_true.mpr
      intro c hc
      have := List.mem_takeWhile_imp (l := m.dropWhile (fun c => !c.isDigit)) hc
      simpa using this
    simp only [extract_rows_affected, if_neg h]
    rw [parseU64_eq_of_digits _ h hall]
    simp only [digitRunValue]
    by_cases h2 : List.foldl (fun acc c => acc * 10 + digitVal c) 0 (firstDigitRun m) ≤ u64Max
    · simp only [if_pos h2]
      by_cases h3 : 0 < List.foldl (fun acc c => acc * 10 + digitVal c) 0 (firstDigitRun m)
      · simp [h2, h3]
      · simp [h2, h3]
    · simp [h2]

theorem execTablePhase_snd (l0 a b : List Char) (r : List (List Char)) (d : Nat)
    (ra : Option Nat) (msg : Option (List Char)) :
    execTablePhase (l0 :: a :: r) d ra msg = execTablePhase (l0 :: b :: r) d ra msg := rfl

theorem parseExecLines_cons_cons (l0 l1 : List Char) (rest : List (List Char)) (d : Nat) :
    parseExecLines (l0 :: l1 :: rest) d = execTrailerPhase (l0 :: l1 :: rest) d := rfl

/-- Claim C2: for every legacy tabular exec output consisting of a header
line, a separator line, K data rows each with as many pipe-separated cells as
the header, and a trailing line `(K row(s))` with K > 0, the legacy exec
parser returns the trimmed header cells as columnNames in order, exactly the
K rows with each cell trimmed in input order, rowsAffected = K and
statusMessage = "K row(s)". -/
theorem exec_legacy_roundtrip (output hline sep : List Char)
    (rlines : List (List Char)) (ds : List Char) (d : Nat)
    (hlines : linesOf output =
      hline :: sep :: rlines ++ ['(' :: (ds ++ (" row(s))".toList))])
    (hds1 : ds ≠ []) (hds2 : ds.all Char.isDigit = true)
    (hdsk : ds.foldl (fun acc c => acc * 10 + digitVal c) 0 = rlines.length)
    (hmax : rlines.length ≤ u64Max) (hkpos : 0 < rlines.length)
    (hcols : ∀ l ∈ rlines, (splitChar '|' l).length = (splitChar '|' hline).length) :
    parse_legacy_exec_output output d = .ok
      { columns := (splitChar '|' hline).map trimL
        rows := rlines.map (fun l => (splitChar '|' l).map trimL)
        durationMs := d
        rowsAffected := some rlines.length
        message := some (natRepr rlines.length ++ (" row(s)".toList)) } := by
  rw [parse_legacy_exec_output, hlines]
  have hlast : ((hline :: sep :: rlines) ++
      ['(' :: (ds ++ (" row(s))".toList))]).getLast? =
      some ('(' :: (ds ++ (" row(s))".toList))) := List.getLast?_concat _
  have hdrop : ((hline :: sep :: rlines) ++
      ['(' :: (ds ++ (" row(s))".toList))]).dropLast =
      hline :: sep :: rlines := List.dropLast_concat
  have hrc := parse_row_count_trailer ds rlines.length hds1 hds2 hdsk hmax
  have hcons : (hline :: sep :: rlines) ++ ['(' :: (ds ++ (" row(s))".toList))] =
      hline :: sep :: (rlines ++ ['(' :: (ds ++ (" row(s))".toList))]) := by simp
  have hstep : parseExecLines
      ((hline :: sep :: rlines) ++ ['(' :: (ds ++ (" row(s))".toList))]) d =
      execTablePhase (hline :: sep :: rlines) d (some rlines.length)
        (some (natRepr rlines.length ++ (" row(s)".toList))) := by
    rw [hcons, parseExecLines_cons_cons, ← hcons]
    simp only [execTrailerPhase, hlast, hrc, hdrop, if_pos hkpos]
  rw [hstep]
  have hcolsn : ∀ l ∈ rlines, (split_table_row l).length =
      (split_table_row hline).length := by
    intro l hl
    simp only [split_table_row, List.length_map]
    exact hcols l hl
  simp only [execTablePhase, if_neg (split_table_row_ne_nil hline),
    collectDataRows_ok _ rlines hcolsn]
  rfl

/-- Claim C3: for every legacy exec output whose remaining lines are a header
line, a separator line and the trailer `(0 row(s))`, the parser succeeds with
empty rows, rowsAffected absent and statusMessage `"0 row(s)"`. -/
theorem exec_legacy_zero_rows (output hline sep : List Char) (d : Nat)
    (h : linesOf output = [hline, sep, ("(0 row(s))".toList)]) :
    parse_legacy_exec_output output d =
      .ok ⟨split_table_row hline, [], d, none, some ("0 row(s)".toList)⟩ := by
  rw [parse_legacy_exec_output, h]
  have hlast : ([hline, sep, ("(0 row(s))".toList)] : List (List Char)).getLast? =
      some ("(0 row(s))".toList) := by simp
  have hrc : parse_row_count_line ("(0 row(s))".toList) = some 0 := by decide
  have hmsg : natRepr 0 ++ (" row(s)".toList) = ("0 row(s)".toList) := by decide
  have hdrop : ([hline, sep, ("(0 row(s))".toList)] : List (List Char)).dropLast =
      [hline, sep] := by simp
  have hstep : parseExecLines [hline, sep, ("(0 row(s))".toList)] d =
      execTablePhase [hline, sep] d none (some ("0 row(s)".toList)) := by
    rw [show ([hline, sep, ("(0 row(s))".toList)] : List (List Char)) =
      hline :: sep :: [("(0 row(s))".toList)] from rfl, parseExecLines_cons_cons]
    simp only [execTrailerPhase, hlast, hrc, hdrop, hmsg, Nat.lt_irrefl, if_false]
  rw [hstep]
  simp only [execTablePhase, if_neg (split_table_row_ne_nil hline), collectDataRows]
  rfl

theorem exec_legacy_roundtrip_witness :
    parse_legacy_exec_output
      ("id | name\n-- | ----\n1 | Ada\n2 | Grace\n(2 row(s))\n".toList) 7 =
      .ok { columns := [("id".toList), ("name".toList)]
            rows := [[("1".toList), ("Ada".toList)], [("2".toList), ("Grace".toList)]]
            durationMs := 7
            rowsAffected := some 2
            message := some ("2 row(s)".toList) } := by
  have h := exec_legacy_roundtrip
    ("id | name\n-- | ----\n1 | Ada\n2 | Grace\n(2 row(s))\n".toList)
    ("id | name".toList) ("-- | ----".toList)
    [("1 | Ada".toList), ("2 | Grace".toList)] ("2".toList) 7
    (by decide) (by decide) (by decide) (by decide) (by decide) (by decide)
    (by decide)
  rw [h]
  decide

theorem exec_legacy_zero_rows_witness :
    parse_legacy_exec_output ("id | name\n-- | ----\n(0 row(s))\n".toList) 5 =
      .ok { columns := [("id".toList), ("name".toList)]
            rows := []
            durationMs := 5
            rowsAffected := none
            message := some ("0 row(s)".toList) } := by
  have h := exec_legacy_zero_rows ("id | name\n-- | ----\n(0 row(s))\n".toList)
    ("id | name".toList) ("-- | ----".toList) 5 (by decide)
  rw [h]
  decide

/-- Claim C10: the legacy exec parser never inspects the separator line: two
outputs whose remaining trimmed lines agree except in the second line (neither
variant matching the `(<count> row(s))` trailer pattern) parse identically. -/
theorem exec_separator_ignored (out1 out2 l0 s1 s2 : List Char)
    (rest : List (List Char)) (d : Nat)
    (h1 : linesOf out1 = l0 :: s1 :: rest) (h2 : linesOf out2 = l0 :: s2 :: rest)
    (hs1 : parse_row_count_line s1 = none) (hs2 : parse_row_count_line s2 = none) :
    parse_legacy_exec_output out1 d = parse_legacy_exec_output out2 d := by
  rw [parse_legacy_exec_output, parse_legacy_exec_output, h1, h2,
    parseExecLines_cons_cons, parseExecLines_cons_cons]
  cases rest with
  | nil =>
    have hl1 : ([l0, s1] : List (List Char)).getLast? = some s1 := by simp
    have hl2 : ([l0, s2] : List (List Char)).getLast? = some s2 := by simp
    simp only [execTrailerPhase, hl1, hl2, hs1, hs2]
    exact execTablePhase_snd l0 s1 s2 [] d none none
  | cons r rs =>
    have hl1 : (l0 :: s1 :: r :: rs).getLast? = (r :: rs).getLast? := by
      rw [List.getLast?_cons_cons, List.getLast?_cons_cons]
    have hl2 : (l0 :: s2 :: r :: rs).getLast? = (r :: rs).getLast? := by
      rw [List.getLast?_cons_cons, List.getLast?_cons_cons]
    have hd1 : (l0 :: s1 :: r :: rs).dropLast = l0 :: s1 :: (r :: rs).dropLast := by
      rw [List.dropLast_cons₂, List.dropLast_cons₂]
    have hd2 : (l0 :: s2 :: r :: rs).dropLast = l0 :: s2 :: (r :: rs).dropLast := by
      rw [List.dropLast_cons₂, List.dropLast_cons₂]
    obtain ⟨x, hx⟩ : ∃ x, (r :: rs).getLast? = some x :=
      ⟨(r :: rs).getLast (by simp), List.getLast?_eq_getLast _ _⟩
    cases hpc : parse_row_count_line x with
    | none =>
      simp only [execTrailerPhase, hl1, hl2, hx, hpc]
      exact execTablePhase_snd l0 s1 s2 (r :: rs) d none none
    | some k =>
      simp only [execTrailerPhase, hl1, hl2, hx, hpc, hd1, hd2]
      exact execTablePhase_snd l0 s1 s2 (r :: rs).dropLast d _ _

theorem exec_separator_ignored_witness :
    parse_legacy_exec_output ("a\n-|-\nc\n".toList) 0 =
      parse_legacy_exec_output ("a\nXX\nc\n".toList) 0 :=
  exec_separator_ignored ("a\n-|-\nc\n".toList) ("a\nXX\nc\n".toList)
    ("a".toList) ("-|-".toList) ("XX".toList) [("c".toList)] 0
    (by decide) (by decide) (by decide) (by decide)

/-- Claim C5 (amended): a legacy exec output that reduces to exactly one
non-empty line not beginning with `(` yields empty columns and rows, the
trimmed line as statusMessage, and rowsAffected equal to the value of the
first run of decimal digits in the message, kept only when that value is
positive and representable as a `u64` (absent otherwise, including on
overflow). -/
theorem exec_single_status_line (output m : List Char) (d : Nat)
    (h : linesOf output = [m]) (hp : startsWithL ("(".toList) m = false) :
    parse_legacy_exec_output output d = .ok
      { columns := []
        rows := []
        durationMs := d
        rowsAffected :=
          if firstDigitRun (trimL m) = [] then none
          else if 0 < digitRunValue (trimL m) ∧ digitRunValue (trimL m) ≤ u64Max
          then some (digitRunValue (trimL m)) else none
        message := some (trimL m) } := by
  rw [parse_legacy_exec_output, h]
  rw [show parseExecLines [m] d =
      (if startsWithL ("(".toList) m = true then execTrailerPhase [m] d
       else .ok ⟨[], [], d, extract_rows_affected (trimL m), some (trimL m)⟩) from rfl]
  rw [if_neg (by rw [hp]; simp), extract_rows_affected_eq]

/-- Counterexample to claim C5 as stated: on the single status line
`99999999999999999999 done` the leading digit run has a positive value, yet
the parser reports rowsAffected as absent, because the 20-digit value
overflows the `u64` parse (`digits.parse::<u64>().ok()` is `None`). -/
theorem exec_single_status_line_cex :
    parse_legacy_exec_output ("99999999999999999999 done".toList) 0 =
      .ok { columns := []
            rows := []
            durationMs := 0
            rowsAffected := none
            message := some ("99999999999999999999 done".toList) } ∧
    firstDigitRun ("99999999999999999999 done".toList) =
      ("99999999999999999999".toList) ∧
    0 < digitRunValue ("99999999999999999999 done".toList) := by
  refine ⟨by decide, by decide, by decide⟩

theorem exec_single_status_line_witness :
    parse_legacy_exec_output ("3 row(s) inserted\n".toList) 12 =
      .ok { columns := []
            rows := []
            durationMs := 12
            rowsAffected := some 3
            message := some ("3 row(s) inserted".toList) } := by
  have h := exec_single_status_line ("3 row(s) inserted\n".toList)
    ("3 row(s) inserted".toList) 12 (by decide) (by decide)
  rw [h]
  decide

/-- Claim C1: for a structured-rows request, a JSON-mode invocation failure
whose message is recognised by `is_unknown_format_error` makes the negotiator
return the legacy path's result; any other failure is propagated unchanged;
and a successful invocation whose body fails to parse is a hard parse error,
with no legacy fallback attempted (the result does not depend on the legacy
outcome). -/
theorem exec_sql_format_negotiation (fmt errMsg out : List Char)
    (parseJson : List Char → Except (List Char) QueryResultPayload)
    (legacy : Except (List Char) QueryResultPayload) :
    (is_unknown_format_error errMsg = true →
      execSqlJsonRows fmt (.error errMsg) parseJson legacy =
        (match legacy with
         | .ok payload => .ok ⟨fmt, none, some payload⟩
         | .error e => .error e)) ∧
    (is_unknown_format_error errMsg = false →
      execSqlJsonRows fmt (.error errMsg) parseJson legacy = .error errMsg) ∧
    (∀ pe, parseJson out = .error pe →
      ∀ legacy2, execSqlJsonRows fmt (.ok out) parseJson legacy2 =
        .error (("Failed to parse JSON output: ".toList) ++ pe)) := by
  refine ⟨?_, ?_, ?_⟩
  · intro h
    simp only [execSqlJsonRows, h, if_true]
  · intro h
    simp only [execSqlJsonRows, h, Bool.false_eq_true, if_false]
  · intro pe hpe legacy2
    simp only [execSqlJsonRows, hpe]

theorem exec_sql_format_negotiation_witness :
    execSqlJsonRows ("jsonRows".toList) (.error ("Unknown Format: json".toList))
      (fun _ => .error ("bad".toList)) (.ok samplePayload) =
      .ok ⟨("jsonRows".toList), none, some samplePayload⟩ := by
  have h := (exec_sql_format_negotiation ("jsonRows".toList)
    ("Unknown Format: json".toList) [] (fun _ => .error ("bad".toList))
    (.ok samplePayload)).1 (by decide)
  exact h

/-- Claim C9 (amended): a failure exit status maps to a NonZeroExit error
carrying the captured standard-error text trimmed of surrounding whitespace
when that trimmed text is non-empty, and the generic message
`granitectl returned an error` when the standard-error text trims to
nothing. -/
theorem granitectl_nonzero_exit (stdout stderr : List Char) :
    (trimL stderr ≠ [] →
      granitectl_exit_result false stdout stderr = .error (trimL stderr)) ∧
    (trimL stderr = [] →
      granitectl_exit_result false stdout stderr =
        .error ("granitectl returned an error".toList)) := by
  constructor
  · intro h
    simp [granitectl_exit_result, List.isEmpty_iff, h]
  · intro h
    simp [granitectl_exit_result, List.isEmpty_iff, h]

/-- Counterexample to claim C9 as stated: with non-empty standard-error text
`"boom\n"` the error carries the trimmed text `"boom"`, not the text
verbatim; and whitespace-only standard-error text, though non-empty, yields
the generic message. -/
theorem granitectl_nonzero_exit_cex :
    granitectl_exit_result false [] ("boom\n".toList) = .error ("boom".toList) ∧
    ("boom\n".toList : List Char) ≠ [] ∧
    ("boom".toList : List Char) ≠ ("boom\n".toList) ∧
    granitectl_exit_result false [] ("  \n".toList) =
      .error ("granitectl returned an error".toList) := by
  refine ⟨by decide, by decide, by decide, by decide⟩

theorem granitectl_nonzero_exit_witness :
    granitectl_exit_result false [] ("error: table missing\n".toList) =
      .error ("error: table missing".toList) := by
  have h := (granitectl_nonzero_exit [] ("error: table missing\n".toList)).1
    (by decide)
  rw [h]
  decide

theorem splitOnceSub_decomp (pat : List Char) :
    ∀ (l a b : List Char), splitOnceSub pat l = some (a, b) → l = a ++ pat ++ b := by
  intro l
  induction l with
  | nil =>
    intro a b h
    rw [splitOnceSub] at h
    by_cases hs : startsWithL pat [] = true
    · cases pat with
      | cons p ps => simp [startsWithL] at hs
      | nil =>
        rw [if_pos hs] at h
        obtain ⟨rfl, rfl⟩ : ([] : List Char) = a ∧ ([] : List Char) = b := by
          simpa [eq_comm] using h
        rfl
    · rw [if_neg hs] at h
      cases h
  | cons c cs ih =>
    intro a b h
    rw [splitOnceSub] at h
    by_cases hs : startsWithL pat (c :: cs) = true
    · rw [if_pos hs] at h
      obtain ⟨rfl, rfl⟩ : ([] : List Char) = a ∧ (c :: cs).drop pat.length = b := by
        simpa [eq_comm] using h
      have htake := (startsWithL_iff_take pat (c :: cs)).mp hs
      calc c :: cs = (c :: cs).take pat.length ++ (c :: cs).drop pat.length :=
            (List.take_append_drop _ _).symm
        _ = [] ++ pat ++ (c :: cs).drop pat.length := by rw [htake]; rfl
    · rw [if_neg hs] at h
      cases hsp : splitOnceSub pat cs with
      | none => rw [hsp] at h; cases h
      | some p =>
        rw [hsp] at h
        obtain ⟨a', b'⟩ := p
        have he : c :: a' = a ∧ b' = b := by simpa using h
        rw [← he.1, ← he.2]
        have := ih a' b' hsp
        rw [List.cons_append, List.cons_append, ← this]

theorem hasSub_iff (pat l : List Char) :
    hasSub pat l = true ↔ ∃ a b, l = a ++ pat ++ b := by
  constructor
  · intro h
    obtain ⟨⟨a, b⟩, hp⟩ := Option.isSome_iff_exists.mp h
    exact ⟨a, b, splitOnceSub_decomp pat l a b hp⟩
  · rintro ⟨a, b, rfl⟩
    exact hasSub_middle pat a b

theorem hasSub_reverse (pat l : List Char) :
    hasSub pat.reverse l.reverse = hasSub pat l := by
  have h1 : ∀ (p q : List Char), hasSub p q = true → hasSub p.reverse q.reverse = true := by
    intro p q h
    obtain ⟨a, b, rfl⟩ := (hasSub_iff p q).mp h
    exact (hasSub_iff _ _).mpr ⟨b.reverse, a.reverse, by simp⟩
  cases hb : hasSub pat l with
  | true => exact h1 pat l hb
  | false =>
    cases hr : hasSub pat.reverse l.reverse with
    | false => rfl
    | true =>
      have h2 := h1 pat.reverse l.reverse hr
      rw [List.reverse_reverse, List.reverse_reverse, hb] at h2
      cases h2

theorem hasSub_trimStartL (pat l : List Char) (p0 : Char) (ps : List Char)
    (hpat : pat = p0 :: ps) (hws : isWS p0 = false) :
    hasSub pat (trimStartL l) = hasSub pat l := by
  induction l with
  | nil => rfl
  | cons c cs ih =>
    by_cases hc : isWS c = true
    · have ht : trimStartL (c :: cs) = trimStartL cs := by
        simp [trimStartL, List.dropWhile_cons, hc]
      rw [ht, ih]
      have hns : startsWithL pat (c :: cs) = false := by
        rw [hpat]
        have : ¬ p0 = c := fun he => by rw [he] at hws; rw [hws] at hc; cases hc
        simp [startsWithL, this]
      rw [hasSub_cons_eq pat c cs hns]
    · have hcf : isWS c = false := by
        cases hcc : isWS c with
        | false => rfl
        | true => exact absurd hcc hc
      rw [trimStartL_cons_of c cs hcf]

theorem hasSub_trimEndL (pat l : List Char) (q0 : Char) (qs : List Char)
    (hpat : pat.reverse = q0 :: qs) (hws : isWS q0 = false) :
    hasSub pat (trimEndL l) = hasSub pat l := by
  rw [← hasSub_reverse pat (trimEndL l), ← hasSub_reverse pat l]
  have he : (trimEndL l).reverse = trimStartL l.reverse := by
    rw [trimEndL, trimStartL, List.reverse_reverse]
  rw [he]
  exact hasSub_trimStartL pat.reverse l.reverse q0 qs hpat hws

theorem hasSub_trimL (pat l : List Char) (p0 q0 : Char) (ps qs : List Char)
    (hp : pat = p0 :: ps) (hq : pat.reverse = q0 :: qs)
    (h1 : isWS p0 = false) (h2 : isWS q0 = false) :
    hasSub pat (trimL l) = hasSub pat l := by
  rw [trimL, hasSub_trimStartL pat _ p0 ps hp h1, hasSub_trimEndL pat l q0 qs hq h2]

/-- Claim C4 (amended): for a schema-metadata request whose structured-mode
invocation succeeds with a body that does not look like structured data: if
the body contains the `unknown command` phrase the negotiator returns the
legacy path's result; if the body trims to nothing (empty or whitespace-only)
it fails with the specific `granitectl returned no metadata` message; and
otherwise it fails with a parse error describing the trimmed body. -/
theorem metadata_negotiation_unstructured (out : List Char)
    (legacy : Except (List Char) (List Char))
    (hL : looks_like_json out = false) :
    (hasSub ("unknown command".toList) out = true →
      metadataNegotiation (.ok out) legacy = legacy) ∧
    (hasSub ("unknown command".toList) out = false → trimL out = [] →
      metadataNegotiation (.ok out) legacy =
        .error ("granitectl returned no metadata".toList)) ∧
    (hasSub ("unknown command".toList) out = false → trimL out ≠ [] →
      metadataNegotiation (.ok out) legacy =
        .error (("granitectl metadata output was not JSON: ".toList) ++ trimL out)) := by
  have hbridge : hasSub ("unknown command".toList) (trimL out) =
      hasSub ("unknown command".toList) out :=
    hasSub_trimL ("unknown command".toList) out 'u' 'd'
      ("nknown command".toList) ("nammoc nwonknu".toList)
      (by decide) (by decide) (by decide) (by decide)
  refine ⟨?_, ?_, ?_⟩
  · intro h
    rw [← hbridge] at h
    simp only [metadataNegotiation, hL, Bool.false_eq_true, if_false, h, if_true]
  · intro h he
    rw [← hbridge] at h
    rw [he] at h
    simp only [metadataNegotiation, hL, Bool.false_eq_true, if_false, he, h, if_true]
  · intro h he
    rw [← hbridge] at h
    simp only [metadataNegotiation, hL, Bool.false_eq_true, if_false, h, if_neg he]

/-- Counterexample to claim C4 as stated: the whitespace-only body `"   "` is
not empty and does not contain the recognised phrase, so the claim requires a
ParseError describing the body, but the negotiator reports the
`granitectl returned no metadata` message reserved for empty bodies (the code
tests emptiness of the trimmed preview, not of the body). -/
theorem metadata_negotiation_unstructured_cex :
    looks_like_json ("   ".toList) = false ∧
    hasSub ("unknown command".toList) ("   ".toList) = false ∧
    ("   ".toList : List Char) ≠ [] ∧
    metadataNegotiation (.ok ("   ".toList)) (.ok ("{}".toList)) =
      .error ("granitectl returned no metadata".toList) ∧
    ("granitectl returned no metadata".toList : List Char) ≠
      ("granitectl metadata output was not JSON: ".toList) ++ trimL ("   ".toList) := by
  refine ⟨by decide, by decide, by decide, by decide, by decide⟩

theorem metadata_negotiation_unstructured_witness :
    metadataNegotiation (.ok ("unknown command: meta".toList)) (.ok ("{}".toList)) =
      .ok ("{}".toList) := by
  have h := (metadata_negotiation_unstructured ("unknown command: meta".toList)
    (.ok ("{}".toList)) (by decide)).1 (by decide)
  exact h

theorem metaLoop_append_some (pre : List (List Char)) :
    ∀ (s st : MetaState) (post : List (List Char)),
      metaRunPre s pre = .ok (some st) →
      metaLoop s (pre ++ post) = metaLoop st post := by
  induction pre with
  | nil =>
    intro s st post h
    rw [metaRunPre] at h
    obtain rfl : s = st := by simpa using h
    rfl
  | cons l ls ih =>
    intro s st post h
    rw [metaRunPre] at h
    rw [List.cons_append, metaLoop]
    cases hstep : metaStep s l with
    | error e => rw [hstep] at h; cases h
    | ok r =>
      rw [hstep] at h
      cases r with
      | shortCircuit => simp at h
      | next s' => exact ih s' st post (by simpa using h)

theorem metaLoop_append_none (pre : List (List Char)) :
    ∀ (s : MetaState) (post : List (List Char)),
      metaRunPre s pre = .ok none →
      metaLoop s (pre ++ post) = .ok [] := by
  induction pre with
  | nil =>
    intro s post h
    rw [metaRunPre] at h
    simp at h
  | cons l ls ih =>
    intro s post h
    rw [metaRunPre] at h
    rw [List.cons_append, metaLoop]
    cases hstep : metaStep s l with
    | error e => rw [hstep] at h; cases h
    | ok r =>
      rw [hstep] at h
      cases r with
      | shortCircuit => rfl
      | next s' => exact ih s' post (by simpa using h)

theorem metaStep_sentinel (s : MetaState) :
    metaStep s ("No tables defined".toList) = .ok .shortCircuit := rfl

/-- Claim C6 (amended): a legacy metadata dump with a line exactly equal to
`No tables defined` parses to an empty table sequence, provided the lines
before the sentinel are themselves processed without a parse error (a parse
error in an earlier line aborts the parse before the sentinel is seen). -/
theorem metadata_sentinel_empty (output : List Char) (pre post : List (List Char))
    (hsplit : splitChar '\n' output = pre ++ ("No tables defined".toList) :: post)
    (hpre : isOkE (metaRunPre ⟨[], none, .columns⟩ pre) = true) :
    parse_legacy_metadata output = .ok ⟨[]⟩ := by
  rw [parse_legacy_metadata, hsplit]
  cases hr : metaRunPre ⟨[], none, .columns⟩ pre with
  | error e => rw [hr] at hpre; simp [isOkE] at hpre
  | ok o =>
    cases o with
    | none =>
      rw [show pre ++ ("No tables defined".toList) :: post =
        pre ++ (("No tables defined".toList) :: post) from rfl]
      rw [metaLoop_append_none pre _ _ hr]
    | some st =>
      rw [show pre ++ ("No tables defined".toList) :: post =
        pre ++ (("No tables defined".toList) :: post) from rfl]
      rw [metaLoop_append_some pre _ st _ hr, metaLoop, metaStep_sentinel st]

/-- Counterexample to claim C6 as stated: the dump `Table x` followed by the
sentinel line contains `No tables defined`, yet the parser fails on the
malformed table header before reaching the sentinel, instead of returning an
empty SchemaSnapshot. -/
theorem metadata_sentinel_empty_cex :
    ("No tables defined".toList : List Char) ∈
      splitChar '\n' ("Table x\nNo tables defined".toList) ∧
    parse_legacy_metadata ("Table x\nNo tables defined".toList) =
      .error ("unexpected table header: Table x".toList) := by
  refine ⟨by decide, by decide⟩

theorem metadata_sentinel_empty_witness :
    parse_legacy_metadata
      ("Table users (3 row(s))\n  - id INT\nNo tables defined\nTable t (1 row(s))".toList) =
      .ok ⟨[]⟩ := by
  have h := metadata_sentinel_empty
    ("Table users (3 row(s))\n  - id INT\nNo tables defined\nTable t (1 row(s))".toList)
    [("Table users (3 row(s))".toList), ("  - id INT".toList)]
    [("Table t (1 row(s))".toList)] (by decide) (by decide)
  exact h

theorem builderToTable_inv (b : LegacyTableBuilder) :
    tableOptInvariant (builderToTable b) := by
  constructor
  · by_cases h : b.indexes = []
    · left
      simp [builderToTable, h]
    · right
      exact ⟨b.indexes, h, by simp [builderToTable, h]⟩
  · by_cases h : b.fks = []
    · left
      simp [builderToTable, h]
    · right
      exact ⟨b.fks, h, by simp [builderToTable, h]⟩

theorem pushCurrent_inv (ts : List LegacyTable) (cur : Option LegacyTableBuilder)
    (hts : ∀ t ∈ ts, tableOptInvariant t) :
    ∀ t ∈ pushCurrent ts cur, tableOptInvariant t := by
  cases cur with
  | none => simpa [pushCurrent] using hts
  | some b =>
    intro t ht
    rw [pushCurrent] at ht
    rcases List.mem_append.mp ht with hm | hm
    · exact hts t hm
    · have : t = builderToTable b := by simpa using hm
      rw [this]
      exact builderToTable_inv b

theorem metaStep_tables (s s' : MetaState) (l : List Char)
    (h : metaStep s l = .ok (.next s')) :
    s'.tables = s.tables ∨ s'.tables = pushCurrent s.tables s.current := by
  simp only [metaStep] at h
  repeat' split at h
  all_goals first
    | (injection h with h1; injection h1 with h2; subst h2; simp)
    | (injection h with h1; injection h1)
    | injection h

theorem metaLoop_inv (ls : List (List Char)) :
    ∀ (s : MetaState) (ts : List LegacyTable),
      (∀ t ∈ s.tables, tableOptInvariant t) →
      metaLoop s ls = .ok ts →
      ∀ t ∈ ts, tableOptInvariant t := by
  induction ls with
  | nil =>
    intro s ts hs h
    rw [metaLoop] at h
    obtain rfl : pushCurrent s.tables s.current = ts := by simpa using h
    exact pushCurrent_inv s.tables s.current hs
  | cons l ls ih =>
    intro s ts hs h
    rw [metaLoop] at h
    cases hstep : metaStep s l with
    | error e => rw [hstep] at h; cases h
    | ok r =>
      rw [hstep] at h
      cases r with
      | shortCircuit =>
        obtain rfl : ([] : List LegacyTable) = ts := by simpa using h
        intro t ht
        simp at ht
      | next s' =>
        apply ih s' ts _ h
        rcases metaStep_tables s s' l hstep with he | he
        · rw [he]
          exact hs
        · rw [he]
          exact pushCurrent_inv s.tables s.current hs

/-- Claim C7: every table produced by the legacy metadata parser has its
optional indexes and foreign-key sections either absent or non-empty, never
an empty sequence; and the builder conversion omits a section exactly when
zero entries were collected for it. -/
theorem metadata_optional_sections (output : List Char) (md : LegacyMetadata)
    (h : parse_legacy_metadata output = .ok md) :
    (∀ t ∈ md.tables, tableOptInvariant t) ∧
    (∀ b : LegacyTableBuilder,
      ((builderToTable b).indexes = none ↔ b.indexes = []) ∧
      ((builderToTable b).fks = none ↔ b.fks = [])) := by
  constructor
  · rw [parse_legacy_metadata] at h
    cases hm : metaLoop ⟨[], none, .columns⟩ (splitChar '\n' output) with
    | error e => rw [hm] at h; cases h
    | ok ts =>
      rw [hm] at h
      obtain rfl : ts = md.tables := by
        have := h
        injection this with h1
        rw [← h1]
      exact metaLoop_inv (splitChar '\n' output) _ _ (by simp) hm
  · intro b
    constructor
    · constructor
      · intro h1
        by_contra h2
        simp [builderToTable, h2] at h1
      · intro h1
        simp [builderToTable, h1]
    · constructor
      · intro h1
        by_contra h2
        simp [builderToTable, h2] at h1
      · intro h1
        simp [builderToTable, h1]

theorem metadata_optional_sections_witness :
    tableOptInvariant
      { name := ("users".toList), rowCount := 3
        columns := [{ name := ("id".toList), columnType := ("INT".toList)
                      notNull := false, primary := false }]
        indexes := none, fks := none } := by
  have h := metadata_optional_sections ("Table users (3 row(s))\n  - id INT".toList)
    ⟨[{ name := ("users".toList), rowCount := 3
        columns := [{ name := ("id".toList), columnType := ("INT".toList)
                      notNull := false, primary := false }]
        indexes := none, fks := none }]⟩ (by decide)
  exact h.1 _ (by simp)

theorem hasSub_append_pat (pat xs : List Char) : hasSub pat (xs ++ pat) = true := by
  have := hasSub_middle pat xs []
  simpa using this

/-- Claim C8: column-flag parsing is order-independent: a legacy column line
`<name> <type>` followed by the ` NOT NULL` and ` PRIMARY KEY` markers in
either order, or by only one of them, always yields the same name and
declared type, with notNull and isPrimaryKey set exactly according to which
markers are present. -/
theorem legacy_column_flag_order (name ty : List Char)
    (hsp : ' ' ∉ name)
    (hA : hasSub (" NOT NULL".toList)
      (((name ++ ' ' :: ty) ++ (" NOT NULL".toList)).dropLast) = false)
    (hB : hasSub (" PRIMARY KEY".toList)
      (((name ++ ' ' :: ty) ++ (" PRIMARY KEY".toList)).dropLast) = false)
    (hC : hasSub (" NOT NULL".toList)
      (((name ++ ' ' :: ty) ++ (" PRIMARY KEY".toList) ++ (" NOT NULL".toList)).dropLast) = false)
    (hE : hasSub (" PRIMARY KEY".toList)
      ((name ++ ' ' :: ty) ++ (" NOT NULL".toList)) = false)
    (htrim1 : trimL ((name ++ ' ' :: ty) ++ (" NOT NULL".toList) ++ (" PRIMARY KEY".toList)) =
      (name ++ ' ' :: ty) ++ (" NOT NULL".toList) ++ (" PRIMARY KEY".toList))
    (htrim2 : trimL ((name ++ ' ' :: ty) ++ (" PRIMARY KEY".toList) ++ (" NOT NULL".toList)) =
      (name ++ ' ' :: ty) ++ (" PRIMARY KEY".toList) ++ (" NOT NULL".toList))
    (htrim3 : trimL ((name ++ ' ' :: ty) ++ (" NOT NULL".toList)) =
      (name ++ ' ' :: ty) ++ (" NOT NULL".toList))
    (htrim4 : trimL ((name ++ ' ' :: ty) ++ (" PRIMARY KEY".toList)) =
      (name ++ ' ' :: ty) ++ (" PRIMARY KEY".toList)) :
    parse_legacy_column ((name ++ ' ' :: ty) ++ (" NOT NULL".toList) ++ (" PRIMARY KEY".toList)) =
      .ok ⟨name, trimL ty, true, true⟩ ∧
    parse_legacy_column ((name ++ ' ' :: ty) ++ (" PRIMARY KEY".toList) ++ (" NOT NULL".toList)) =
      .ok ⟨name, trimL ty, true, true⟩ ∧
    parse_legacy_column ((name ++ ' ' :: ty) ++ (" NOT NULL".toList)) =
      .ok ⟨name, trimL ty, true, false⟩ ∧
    parse_legacy_column ((name ++ ' ' :: ty) ++ (" PRIMARY KEY".toList)) =
      .ok ⟨name, trimL ty, false, true⟩ := by
  have hnnne : (" NOT NULL".toList : List Char) ≠ [] := by decide
  have hpkne : (" PRIMARY KEY".toList : List Char) ≠ [] := by decide
  have hdl1 : ((name ++ ' ' :: ty) ++ (" PRIMARY KEY".toList)).dropLast =
      (name ++ ' ' :: ty) ++ (" PRIMARY KEY".toList).dropLast :=
    dropLast_append_ne _ _ hpkne
  have hBpre : hasSub (" PRIMARY KEY".toList) (name ++ ' ' :: ty) = false := by
    rw [hdl1] at hB
    exact hasSub_false_of_append _ _ _ hB
  have hdl2 : ((name ++ ' ' :: ty) ++ (" PRIMARY KEY".toList) ++ (" NOT NULL".toList)).dropLast =
      ((name ++ ' ' :: ty) ++ (" PRIMARY KEY".toList)) ++ (" NOT NULL".toList).dropLast :=
    dropLast_append_ne _ _ hnnne
  have hCpk : hasSub (" NOT NULL".toList)
      ((name ++ ' ' :: ty) ++ (" PRIMARY KEY".toList)) = false := by
    rw [hdl2] at hC
    exact hasSub_false_of_append _ _ _ hC
  have hchar := splitOnceChar_middle ' ' name ty hsp
  have hs3 : splitOnceSub (" PRIMARY KEY".toList)
      ((name ++ ' ' :: ty) ++ (" PRIMARY KEY".toList)) = some (name ++ ' ' :: ty, []) := by
    have := splitOnceSub_middle (" PRIMARY KEY".toList) (name ++ ' ' :: ty) [] hpkne hB
    simpa using this
  refine ⟨?_, ?_, ?_, ?_⟩
  · simp only [parse_legacy_column, htrim1,
      hasSub_middle (" NOT NULL".toList) (name ++ ' ' :: ty) (" PRIMARY KEY".toList),
      hasSub_append_pat (" PRIMARY KEY".toList) ((name ++ ' ' :: ty) ++ (" NOT NULL".toList)),
      splitOnceSub_middle (" NOT NULL".toList) (name ++ ' ' :: ty)
        (" PRIMARY KEY".toList) hnnne hA,
      splitOnceSub_eq_none _ _ hBpre, hchar]
  · have hs2 : splitOnceSub (" NOT NULL".toList)
        ((name ++ ' ' :: ty) ++ (" PRIMARY KEY".toList) ++ (" NOT NULL".toList)) =
        some ((name ++ ' ' :: ty) ++ (" PRIMARY KEY".toList), []) := by
      have := splitOnceSub_middle (" NOT NULL".toList)
        ((name ++ ' ' :: ty) ++ (" PRIMARY KEY".toList)) [] hnnne hC
      simpa using this
    simp only [parse_legacy_column, htrim2,
      hasSub_append_pat (" NOT NULL".toList) ((name ++ ' ' :: ty) ++ (" PRIMARY KEY".toList)),
      hasSub_middle (" PRIMARY KEY".toList) (name ++ ' ' :: ty) (" NOT NULL".toList),
      hs2, hs3, hchar]
  · have hs4 : splitOnceSub (" NOT NULL".toList)
        ((name ++ ' ' :: ty) ++ (" NOT NULL".toList)) = some (name ++ ' ' :: ty, []) := by
      have := splitOnceSub_middle (" NOT NULL".toList) (name ++ ' ' :: ty) [] hnnne hA
      simpa using this
    simp only [parse_legacy_column, htrim3,
      hasSub_append_pat (" NOT NULL".toList) (name ++ ' ' :: ty), hE,
      hs4, splitOnceSub_eq_none _ _ hBpre, hchar]
  · simp only [parse_legacy_column, htrim4,
      hCpk, hasSub_append_pat (" PRIMARY KEY".toList) (name ++ ' ' :: ty),
      splitOnceSub_eq_none _ _ hCpk, hs3, hchar]

theorem legacy_column_flag_order_witness :
    parse_legacy_column ("x INT NOT NULL PRIMARY KEY".toList) =
      .ok ⟨("x".toList), ("INT".toList), true, true⟩ ∧
    parse_legacy_column ("x INT PRIMARY KEY NOT NULL".toList) =
      .ok ⟨("x".toList), ("INT".toList), true, true⟩ ∧
    parse_legacy_column ("x INT NOT NULL".toList) =
      .ok ⟨("x".toList), ("INT".toList), true, false⟩ ∧
    parse_legacy_column ("x INT PRIMARY KEY".toList) =
      .ok ⟨("x".toList), ("INT".toList), false, true⟩ := by
  have h := legacy_column_flag_order ("x".toList) ("INT".toList)
    (by decide) (by decide) (by decide) (by decide) (by decide)
    (by decide) (by decide) (by decide) (by decide)
  have e1 : ("x INT NOT NULL PRIMARY KEY".toList : List Char) =
      (("x".toList) ++ ' ' :: ("INT".toList)) ++ (" NOT NULL".toList) ++
        (" PRIMARY KEY".toList) := by decide
  have e2 : ("x INT PRIMARY KEY NOT NULL".toList : List Char) =
      (("x".toList) ++ ' ' :: ("INT".toList)) ++ (" PRIMARY KEY".toList) ++
        (" NOT NULL".toList) := by decide
  have e3 : ("x INT NOT NULL".toList : List Char) =
      (("x".toList) ++ ' ' :: ("INT".toList)) ++ (" NOT NULL".toList) := by decide
  have e4 : ("x INT PRIMARY KEY".toList : List Char) =
      (("x".toList) ++ ' ' :: ("INT".toList)) ++ (" PRIMARY KEY".toList) := by decide
  refine ⟨?_, ?_, ?_, ?_⟩
  · rw [e1]
    exact h.1.trans (by decide)
  · rw [e2]
    exact h.2.1.trans (by decide)
  · rw [e3]
    exact h.2.2.1.trans (by decide)
  · rw [e4]
    exact h.2.2.2.trans (by decide)
